import Mathlib

/-!
Verification development for the `laser_cam` repository.

The Rust sources are shallowly embedded in Lean 4:
* `f64` coordinates are modelled as `ℚ` (all concrete inputs below are exactly
  representable in binary floating point, and every operation the embedded code
  performs on them — comparison, equality, min/max, addition, multiplication —
  is exact on such values, so `ℚ` and `f64` agree on them);
* `u16` fields are modelled as `ℕ` (the code only ever reads and prints them,
  no arithmetic that could wrap occurs);
* mutation is turned into explicit state passing;
* code that can panic (`unwrap` on `None`) is modelled in `Option`, a `none`
  result standing for the panic;
* `Result`/`bail!` error paths are modelled in `Except`.

External library calls (`ultraviolet` transforms, `geo` polygon predicates) are
embedded by their documented semantics; where a geometric predicate of `geo` is
only used as an opaque test by the repository code (`Contains<Polygon> for
Polygon` inside `Shape::from_lines`), the embedding is parameterised over it.
-/

namespace LaserCam

/-- 2D vector with rational coordinates. Embeds `ultraviolet::DVec2`, which the
repository aliases as both `Point` and `Vector` (`main.rs`), and also
`geo::Coord<f64>`: the conversions `to_uv`/`to_geo` in `utils.rs` copy the `x`
and `y` fields verbatim, so a single type models both. -/
structure Vec2 where
  x : ℚ
  y : ℚ
deriving DecidableEq, Repr

instance : Add Vec2 := ⟨fun a b => ⟨a.x + b.x, a.y + b.y⟩⟩

/-- Scalar multiplication `scale * vec` on `DVec2`. -/
def Vec2.smul (k : ℚ) (v : Vec2) : Vec2 := ⟨k * v.x, k * v.y⟩

/-- Embeds `ultraviolet::DRotor2`: a 2D rotor with scalar part `s` and
bivector part `xy`. -/
structure DRotor2 where
  s : ℚ
  xy : ℚ
deriving DecidableEq, Repr

/-- Rotor action on a vector, `impl Mul<DVec2> for DRotor2` in `ultraviolet`
(the rotor sandwich product, applied as two half-rotations). -/
def DRotor2.rotate (r : DRotor2) (v : Vec2) : Vec2 :=
  let fx := r.s * v.x + r.xy * v.y
  let fy := r.s * v.y - r.xy * v.x
  ⟨r.s * fx + r.xy * fy, r.s * fy - r.xy * fx⟩

/-- The identity rotor, `DRotor2::from_angle(0.0)`. -/
def DRotor2.identity : DRotor2 := ⟨1, 0⟩

/-- Embeds `ultraviolet::DSimilarity2`, aliased `Transform` by the repository:
a translation, a rotation and a uniform scale. -/
structure DSimilarity2 where
  translation : Vec2
  rotation : DRotor2
  scale : ℚ
deriving DecidableEq, Repr

/-- `DSimilarity2::transform_vec`: scale, then rotate, then translate. -/
def DSimilarity2.transform_vec (t : DSimilarity2) (v : Vec2) : Vec2 :=
  t.translation + t.rotation.rotate (Vec2.smul t.scale v)

/-- Embeds `EntityState` (`sheet.rs`): a similarity transform, a Y-flip flag
and the entity's laser-condition id. -/
structure EntityState where
  transform : DSimilarity2
  flip : Bool
  laser_condition : ℕ
deriving DecidableEq, Repr

/-- Embeds `EntityState::transform` (`sheet.rs`): if `flip` is set the point's
`y` coordinate is negated in place, then the similarity transform is applied.
(Named `transformPoint` because the Lean structure already owns the field
accessor `EntityState.transform`.) -/
def EntityState.transformPoint (st : EntityState) (point : Vec2) : Vec2 :=
  let point := if st.flip then { point with y := point.y * (-1) } else point
  st.transform.transform_vec point

/-- Negating the y coordinate of a point, the "flip" as the spec describes it
("the point with its y-coordinate negated"). -/
def flipY (p : Vec2) : Vec2 := ⟨p.x, -p.y⟩

/-- C9: for every point and every `EntityState`, if the flip flag is set the
applied transform is the similarity transform of the y-negated point (flip
composed in model space before the similarity transform), and if the flag is
clear it is the similarity transform of the unchanged point. -/
theorem entityState_flip_before_similarity (st : EntityState) (p : Vec2) :
    (st.flip = true →
      st.transformPoint p = st.transform.transform_vec (flipY p)) ∧
    (st.flip = false →
      st.transformPoint p = st.transform.transform_vec p) := by
  constructor <;> intro h <;>
    simp [EntityState.transformPoint, flipY, h]

/-- Witness for C9 at a concrete state and point: a flipped entity with a
nontrivial rotor and a non-flipped one. -/
theorem entityState_flip_before_similarity_witness :
    (EntityState.transformPoint ⟨⟨⟨1, 2⟩, ⟨0, 1⟩, 2⟩, true, 0⟩ ⟨3, 4⟩ =
      DSimilarity2.transform_vec ⟨⟨1, 2⟩, ⟨0, 1⟩, 2⟩ (flipY ⟨3, 4⟩)) ∧
    (EntityState.transformPoint ⟨⟨⟨1, 2⟩, ⟨0, 1⟩, 2⟩, false, 0⟩ ⟨3, 4⟩ =
      DSimilarity2.transform_vec ⟨⟨1, 2⟩, ⟨0, 1⟩, 2⟩ ⟨3, 4⟩) :=
  ⟨(entityState_flip_before_similarity ⟨⟨⟨1, 2⟩, ⟨0, 1⟩, 2⟩, true, 0⟩ ⟨3, 4⟩).1 rfl,
   (entityState_flip_before_similarity ⟨⟨⟨1, 2⟩, ⟨0, 1⟩, 2⟩, false, 0⟩ ⟨3, 4⟩).2 rfl⟩

/-! ## Instruction model (`gcode.rs`) -/

/-- The decimal digit `d` (`d < 10`) as a character. -/
def digitChar (d : ℕ) : Char := Char.ofNat (48 + d)

/-- Fuel-indexed most-significant-first decimal digits of a natural number;
with fuel `> n` this is the usual decimal representation. -/
def natReprAux : ℕ → ℕ → List Char
  | 0, _ => []
  | fuel + 1, n =>
    if n < 10 then [digitChar n]
    else natReprAux fuel (n / 10) ++ [digitChar (n % 10)]

/-- Decimal representation of a natural number; models Rust's `Display` for
`u16` (used by the `G{n}`/`S{n}`/`M{n}`/`F{n}` format strings). -/
def natRepr (n : ℕ) : String := String.mk (natReprAux (n + 1) n)

/-- Round a rational to the nearest integer, ties to even; this is the
rounding Rust's `{:.6}` float formatting performs after scaling. -/
def roundHalfEven (x : ℚ) : ℤ :=
  let f := ⌊x⌋
  let r := x - f
  if r < 1/2 then f
  else if 1/2 < r then f + 1
  else if f % 2 = 0 then f else f + 1

/-- Models Rust's `{flt:.6}` fixed-point formatting of an `f64`: sign, integer
part, a decimal point, and exactly six (zero-padded) fractional digits. -/
def fmtFixed6 (q : ℚ) : String :=
  let n : ℕ := (roundHalfEven (|q| * 1000000)).toNat
  let ip := n / 1000000
  let fr := n % 1000000
  let frStr := String.mk [digitChar (fr / 100000 % 10), digitChar (fr / 10000 % 10),
    digitChar (fr / 1000 % 10), digitChar (fr / 100 % 10), digitChar (fr / 10 % 10),
    digitChar (fr % 10)]
  (if q < 0 then "-" else "") ++ natRepr ip ++ "." ++ frStr

/-- Embeds `GcodeInstruction` (`gcode.rs`). `u16` payloads are naturals, `f64`
payloads are rationals. -/
inductive GcodeInstruction where
  | G (n : ℕ)
  | S (n : ℕ)
  | M (n : ℕ)
  | F (n : ℕ)
  | X (v : ℚ)
  | Y (v : ℚ)
  | Custom (s : String)
deriving DecidableEq, Repr

/-- Embeds `impl Display for GcodeInstruction`: letter prefix plus decimal
integer for `G`/`S`/`M`/`F`, letter prefix plus `{:.6}` float for `X`/`Y`,
and the custom string verbatim. -/
def GcodeInstruction.format : GcodeInstruction → String
  | .G n => "G" ++ natRepr n
  | .S n => "S" ++ natRepr n
  | .M n => "M" ++ natRepr n
  | .F n => "F" ++ natRepr n
  | .X v => "X" ++ fmtFixed6 v
  | .Y v => "Y" ++ fmtFixed6 v
  | .Custom s => s

/-- Embeds `GcodeBlock` (`gcode.rs`): an instruction list and an optional
comment. -/
structure GcodeBlock where
  ins : List GcodeInstruction
  comment : Option String
deriving DecidableEq, Repr

instance : Inhabited GcodeBlock := ⟨⟨[], none⟩⟩

theorem gcodeBlock_default_eq : (default : GcodeBlock) = ⟨[], none⟩ := rfl

/-- `GcodeBlock::len`: the number of instructions (the comment is not
counted). -/
def GcodeBlock.len (b : GcodeBlock) : ℕ := b.ins.length

/-- `GcodeBlock::push`. -/
def GcodeBlock.push (b : GcodeBlock) (code : GcodeInstruction) : GcodeBlock :=
  { b with ins := b.ins ++ [code] }

/-- `GcodeBlock::add_comment`: sets the comment, or appends to an existing one
after a semicolon separator. -/
def GcodeBlock.add_comment (b : GcodeBlock) (text : String) : GcodeBlock :=
  match b.comment with
  | none => { b with comment := some text }
  | some s => { b with comment := some (s ++ "; " ++ text) }

/-- Embeds `impl Display for GcodeBlock`: first instruction, each further
instruction preceded by one space, then the parenthesized comment preceded by
one space; a block without instructions formats as just the parenthesized
comment (no leading space), or as the empty string if there is no comment. -/
def GcodeBlock.format (b : GcodeBlock) : String :=
  match b.ins with
  | [] =>
    match b.comment with
    | some c => "(" ++ c ++ ")"
    | none => ""
  | i :: rest =>
    (rest.foldl (fun acc code => acc ++ " " ++ code.format) i.format) ++
      (match b.comment with
       | some c => " (" ++ c ++ ")"
       | none => "")

/-- Embeds `GcodeBuilder` (`gcode.rs`): finished blocks plus the currently
accumulating block. -/
structure GcodeBuilder where
  inner : List GcodeBlock
  current_block : GcodeBlock
deriving DecidableEq, Repr

instance : Inhabited GcodeBuilder := ⟨⟨[], default⟩⟩

/-- Push an instruction onto the current block (the shared body of the
`GcodeBuilder` chain methods). -/
def GcodeBuilder.push (b : GcodeBuilder) (code : GcodeInstruction) : GcodeBuilder :=
  { b with current_block := b.current_block.push code }

/-- `GcodeBuilder::laser_power`: pushes `S{power}`. -/
def GcodeBuilder.laser_power (b : GcodeBuilder) (power : ℕ) : GcodeBuilder :=
  b.push (.S power)

/-- `GcodeBuilder::x`. -/
def GcodeBuilder.x (b : GcodeBuilder) (v : ℚ) : GcodeBuilder := b.push (.X v)

/-- `GcodeBuilder::y`. -/
def GcodeBuilder.y (b : GcodeBuilder) (v : ℚ) : GcodeBuilder := b.push (.Y v)

/-- `GcodeBuilder::feed`: pushes `F{feed}`. -/
def GcodeBuilder.feed (b : GcodeBuilder) (f : ℕ) : GcodeBuilder := b.push (.F f)

/-- `GcodeBuilder::laser_on_const`: pushes `M3`. -/
def GcodeBuilder.laser_on_const (b : GcodeBuilder) : GcodeBuilder := b.push (.M 3)

/-- `GcodeBuilder::laser_on_dyn`: pushes `M4`. -/
def GcodeBuilder.laser_on_dyn (b : GcodeBuilder) : GcodeBuilder := b.push (.M 4)

/-- `GcodeBuilder::laser_off`: pushes `M5`. -/
def GcodeBuilder.laser_off (b : GcodeBuilder) : GcodeBuilder := b.push (.M 5)

/-- `GcodeBuilder::rapid_motion`: pushes `G0`. -/
def GcodeBuilder.rapid_motion (b : GcodeBuilder) : GcodeBuilder := b.push (.G 0)

/-- `GcodeBuilder::cutting_motion`: pushes `G1`. -/
def GcodeBuilder.cutting_motion (b : GcodeBuilder) : GcodeBuilder := b.push (.G 1)

/-- `GcodeBuilder::custom`: pushes the raw string. -/
def GcodeBuilder.custom (b : GcodeBuilder) (s : String) : GcodeBuilder :=
  b.push (.Custom s)

/-- `GcodeBuilder::eob`: finalizes the current block and starts a fresh one. -/
def GcodeBuilder.eob (b : GcodeBuilder) : GcodeBuilder :=
  ⟨b.inner ++ [b.current_block], default⟩

/-- `GcodeBuilder::comment_block`: appends a block holding only a comment. -/
def GcodeBuilder.comment_block (b : GcodeBuilder) (text : String) : GcodeBuilder :=
  { b with inner := b.inner ++ [GcodeBlock.add_comment default text] }

/-- The program-end block appended by `GcodeBuilder::finish` (`M30`). -/
def endBlock : GcodeBlock := ⟨[.M 30], none⟩

/-- Embeds `GcodeBuilder::finish`: the current block is flushed only when it
holds at least one instruction (`len() > 0`; the comment is not counted), then
the `M30` program-end block is appended, and every block's formatted text is
written followed by a newline. -/
def GcodeBuilder.finish (b : GcodeBuilder) : String :=
  let inner := if 0 < b.current_block.len then b.inner ++ [b.current_block] else b.inner
  let inner := inner ++ [endBlock]
  inner.foldl (fun out blk => out ++ (blk.format ++ "\n")) ""

/-! ### Formatting lemmas (C8) -/

/-- Spec-side helper: each instruction of the list rendered with a single
leading space, concatenated in order. -/
def catSpaced : List GcodeInstruction → String
  | [] => ""
  | code :: rest => " " ++ code.format ++ catSpaced rest

/-- Spec-side helper: each block's formatted text on its own
newline-terminated line, concatenated in order. -/
def linesText : List GcodeBlock → String
  | [] => ""
  | blk :: rest => (blk.format ++ "\n") ++ linesText rest

theorem foldl_format_eq_catSpaced (rest : List GcodeInstruction) (acc : String) :
    rest.foldl (fun acc code => acc ++ " " ++ code.format) acc = acc ++ catSpaced rest := by
  induction rest generalizing acc with
  | nil => simp [catSpaced]
  | cons code rest ih =>
    rw [List.foldl_cons, ih, catSpaced]
    simp only [String.append_assoc]

theorem foldl_lines_eq_linesText (l : List GcodeBlock) (acc : String) :
    l.foldl (fun out blk => out ++ (blk.format ++ "\n")) acc = acc ++ linesText l := by
  induction l generalizing acc with
  | nil => simp [linesText]
  | cons blk rest ih =>
    simp only [List.foldl_cons, linesText, ih, String.append_assoc]

theorem digitChar_isDigit {d : ℕ} (h : d < 10) : (digitChar d).isDigit = true := by
  interval_cases d <;> decide

theorem digitChar_ne_dot {d : ℕ} (h : d < 10) : digitChar d ≠ '.' := by
  interval_cases d <;> decide

theorem natReprAux_digits (fuel n : ℕ) :
    ∀ c ∈ natReprAux fuel n, c.isDigit = true := by
  induction fuel generalizing n with
  | zero => intro c hc; simp [natReprAux] at hc
  | succ fuel ih =>
    intro c hc
    by_cases h : n < 10
    · simp [natReprAux, h] at hc
      exact hc ▸ digitChar_isDigit h
    · simp [natReprAux, h] at hc
      rcases hc with hc | hc
      · exact ih _ c hc
      · exact hc ▸ digitChar_isDigit (Nat.mod_lt _ (by omega))

theorem natRepr_no_dot (n : ℕ) : '.' ∉ (natRepr n).data := by
  intro hmem
  have := natReprAux_digits (n + 1) n '.' hmem
  simp at this

/-- C8: a block with instructions formats as the first instruction, then each
subsequent instruction preceded by a single space, then (when present) a space
and the parenthesized comment; a block with no instructions and a comment
formats as just the parenthesized comment; coordinate instructions carry
exactly six digits after the decimal point, integer-valued instructions have a
letter prefix and no decimal point, and `[G1, X1.0]` with comment "cut"
formats as `G1 X1.000000 (cut)`. -/
theorem gcodeBlock_format_spec :
    (∀ (code : GcodeInstruction) (rest : List GcodeInstruction) (cmt : String),
      GcodeBlock.format ⟨code :: rest, some cmt⟩ =
        code.format ++ catSpaced rest ++ (" (" ++ cmt ++ ")")) ∧
    (∀ (code : GcodeInstruction) (rest : List GcodeInstruction),
      GcodeBlock.format ⟨code :: rest, none⟩ = code.format ++ catSpaced rest) ∧
    (∀ cmt : String, GcodeBlock.format ⟨[], some cmt⟩ = "(" ++ cmt ++ ")") ∧
    (∀ v : ℚ, ∃ intPart fracPart : String,
      (GcodeInstruction.X v).format = "X" ++ intPart ++ "." ++ fracPart ∧
      fracPart.length = 6 ∧
      (∀ c ∈ fracPart.data, c.isDigit = true) ∧
      '.' ∉ intPart.data) ∧
    (∀ n : ℕ,
      '.' ∉ ((GcodeInstruction.G n).format).data ∧
      '.' ∉ ((GcodeInstruction.S n).format).data ∧
      '.' ∉ ((GcodeInstruction.M n).format).data ∧
      '.' ∉ ((GcodeInstruction.F n).format).data) ∧
    GcodeBlock.format ⟨[.G 1, .X 1], some "cut"⟩ = "G1 X1.000000 (cut)" := by
  refine ⟨?_, ?_, ?_, ?_, ?_, ?_⟩
  · intro code rest cmt
    simp only [GcodeBlock.format]
    rw [foldl_format_eq_catSpaced]
  · intro code rest
    simp only [GcodeBlock.format, foldl_format_eq_catSpaced, String.append_empty]
  · intro cmt; rfl
  · intro v
    refine ⟨(if v < 0 then "-" else "") ++
      natRepr ((roundHalfEven (|v| * 1000000)).toNat / 1000000), ?_, ?_, ?_, ?_, ?_⟩
    · exact String.mk [digitChar ((roundHalfEven (|v| * 1000000)).toNat % 1000000 / 100000 % 10),
        digitChar ((roundHalfEven (|v| * 1000000)).toNat % 1000000 / 10000 % 10),
        digitChar ((roundHalfEven (|v| * 1000000)).toNat % 1000000 / 1000 % 10),
        digitChar ((roundHalfEven (|v| * 1000000)).toNat % 1000000 / 100 % 10),
        digitChar ((roundHalfEven (|v| * 1000000)).toNat % 1000000 / 10 % 10),
        digitChar ((roundHalfEven (|v| * 1000000)).toNat % 1000000 % 10)]
    · simp only [GcodeInstruction.format, fmtFixed6, String.append_assoc]
    · rfl
    · intro c hc
      simp [String.mk] at hc
      rcases hc with hc | hc | hc | hc | hc | hc <;>
        exact hc ▸ digitChar_isDigit (Nat.mod_lt _ (by omega))
    · intro hmem
      rw [String.data_append] at hmem
      rcases List.mem_append.mp hmem with hmem | hmem
      · by_cases hv : v < 0 <;> simp [hv] at hmem
      · exact natRepr_no_dot _ hmem
  · intro n
    refine ⟨?_, ?_, ?_, ?_⟩ <;>
      · intro hmem
        rw [GcodeInstruction.format, String.data_append] at hmem
        rcases List.mem_append.mp hmem with hmem | hmem
        · simp at hmem
        · exact natRepr_no_dot _ hmem
  · with_unfolding_all decide

/-! ### Builder finish (C7) -/

/-- C7 counterexample: a builder whose pending current block holds only a
comment (no instruction). `finish` discards it — the output is just the
program-end line, although the pending block would have formatted as
`(note)` — so `finish` does not flush every pending block. -/
theorem gcodeBuilder_finish_drops_comment_only_pending :
    GcodeBuilder.finish ⟨[], ⟨[], some "note"⟩⟩ = "M30\n" ∧
    GcodeBlock.format ⟨[], some "note"⟩ = "(note)" ∧
    ("M30\n" : String) ≠ "(note)" ++ "\n" ++ "M30\n" := by
  refine ⟨by with_unfolding_all decide, rfl, by decide⟩

/-- C7 amended: `finish` flushes the pending block only when it holds at least
one instruction (a pending comment-only block is discarded), appends exactly
one program-end `M30` block as the last block, and returns every block's
formatted text on its own newline-terminated line; the output always ends
with the line of the block containing exactly the program-end code. -/
theorem gcodeBuilder_finish_spec :
    ∀ (inner : List GcodeBlock) (cur : GcodeBlock),
      GcodeBuilder.finish ⟨inner, cur⟩ =
        linesText ((inner ++ (if 0 < cur.len then [cur] else [])) ++ [endBlock]) ∧
      (∃ pre, GcodeBuilder.finish ⟨inner, cur⟩ = pre ++ "M30\n") ∧
      endBlock.format = "M30" := by
  intro inner cur
  have hfin : GcodeBuilder.finish ⟨inner, cur⟩ =
      linesText ((inner ++ (if 0 < cur.len then [cur] else [])) ++ [endBlock]) := by
    rw [GcodeBuilder.finish]
    by_cases h : 0 < cur.len <;>
      simp only [h, if_true, if_false, reduceIte, foldl_lines_eq_linesText,
        String.empty_append, List.append_assoc, List.nil_append]
  refine ⟨hfin, ?_, rfl⟩
  have hlast : ∀ l : List GcodeBlock, ∃ pre,
      linesText (l ++ [endBlock]) = pre ++ "M30\n" := by
    intro l
    induction l with
    | nil => exact ⟨"", by rw [String.empty_append]; rfl⟩
    | cons blk rest ih =>
      obtain ⟨pre, hp⟩ := ih
      refine ⟨blk.format ++ "\n" ++ pre, ?_⟩
      simp only [List.cons_append, linesText, List.append_eq, hp, String.append_assoc]
  obtain ⟨pre, hp⟩ := hlast (inner ++ (if 0 < cur.len then [cur] else []))
  exact ⟨pre, hfin.trans hp⟩

/-! ## Segment stitcher (`model.rs`: `LineBuilder` and the loop in
`load_model`) -/

/-- Embeds `Segment` (`model.rs`): an ordered pair of points (`p1 → p2`). -/
structure Segment where
  p1 : Vec2
  p2 : Vec2
deriving DecidableEq, Repr

/-- Embeds `geo::LineString`: an ordered list of coordinates (the `to_geo`
conversion is the identity on the `x`/`y` fields). -/
abbrev GLineString := List Vec2

/-- Embeds `LineBuilder` (`model.rs`): the buffer of points of the line being
stitched. -/
abbrev LineBuilder := List Vec2

/-- Embeds `LineBuilder::try_add`: an empty buffer is seeded with both
endpoints; otherwise the segment's end point is appended when its start point
equals the buffer's last point, and the segment is handed back as an error
when it does not (exact coordinate equality, as in the source). -/
def LineBuilder.try_add (b : LineBuilder) (seg : Segment) : Except Segment LineBuilder :=
  if b.isEmpty then .ok (b ++ [seg.p1, seg.p2])
  else if b.getLast? = some seg.p1 then .ok (b ++ [seg.p2])
  else .error seg

/-- Embeds `LineBuilder::finish`: `LineString::new(self.0)` — the buffer is
returned as is; no point is dropped and no open/closed tag is attached. -/
def LineBuilder.finish (b : LineBuilder) : GLineString := b

/-- One iteration of the stitching loop in `load_model`: on `Err(seg)` the
current buffer is finished into the output list and a fresh buffer receives
the segment (`try_add` on an empty buffer always pushes both endpoints). -/
def stitchStep (st : List GLineString × LineBuilder) (seg : Segment) :
    List GLineString × LineBuilder :=
  match st.2.try_add seg with
  | .ok b => (st.1, b)
  | .error s => (st.1 ++ [st.2.finish], [s.p1, s.p2])

/-- The stitching loop of `load_model` over already-projected segments,
including the final flush of a non-empty buffer. -/
def stitchSegments (segs : List Segment) : List GLineString :=
  let st := segs.foldl stitchStep ([], [])
  if st.2.isEmpty then st.1 else st.1 ++ [st.2.finish]

theorem foldl_stitch_chain (segs : List Segment) (lines : List GLineString)
    (b : LineBuilder) (hb : b ≠ [])
    (hhead : ∀ s, segs.head? = some s → b.getLast? = some s.p1)
    (hchain : List.Chain' (fun s t => s.p2 = t.p1) segs) :
    segs.foldl stitchStep (lines, b) = (lines, b ++ segs.map (·.p2)) := by
  induction segs generalizing b with
  | nil => simp
  | cons s rest ih =>
    have hlast : b.getLast? = some s.p1 := hhead s rfl
    have hstep : stitchStep (lines, b) s = (lines, b ++ [s.p2]) := by
      simp only [stitchStep, LineBuilder.try_add, List.isEmpty_eq_true.symm]
      simp [List.isEmpty_iff, hb, hlast]
    rw [List.foldl_cons, hstep,
      ih (b ++ [s.p2]) (by simp)
        (by
          intro t ht
          rcases rest with _ | ⟨t', rest'⟩
          · simp at ht
          · simp at ht
            subst ht
            have := hchain.rel_head
            simp [List.getLast?_append, ← this])
        hchain.tail]
    simp [List.append_assoc]

/-- C2 amended: segments forming exactly one closed chain stitch into exactly
one polyline that stores the seed point followed by every segment end point:
the stored point count is the segment count plus one, the duplicated
start/end point is retained (the stored first and last points are equal), and
no open/closed classification is made. -/
theorem stitch_one_closed_loop (segs : List Segment) (s0 : Segment)
    (hhead : segs.head? = some s0)
    (hchain : List.Chain' (fun s t => s.p2 = t.p1) segs)
    (hclosed : (segs.map (·.p2)).getLast? = some s0.p1) :
    stitchSegments segs = [s0.p1 :: segs.map (·.p2)] ∧
    (s0.p1 :: segs.map (·.p2)).length = segs.length + 1 ∧
    (s0.p1 :: segs.map (·.p2)).getLast? = some s0.p1 := by
  rcases segs with _ | ⟨s, rest⟩
  · simp at hhead
  · simp only [List.head?_cons, Option.some.injEq] at hhead
    subst hhead
    have hfold : (s :: rest).foldl stitchStep ([], []) =
        ([], [s.p1, s.p2] ++ rest.map (·.p2)) := by
      have hstep : stitchStep ([], []) s = ([], [s.p1, s.p2]) := by
        simp [stitchStep, LineBuilder.try_add]
      rw [List.foldl_cons, hstep,
        foldl_stitch_chain rest [] [s.p1, s.p2] (by simp)
          (by
            intro t ht
            rcases rest with _ | ⟨t', rest'⟩
            · simp at ht
            · simp at ht
              subst ht
              have := hchain.rel_head
              simp [← this])
          hchain.tail]
    refine ⟨?_, by simp, ?_⟩
    · rw [stitchSegments, hfold]
      simp [LineBuilder.finish]
    · have h1 : (s.p1 :: (s :: rest).map (·.p2)).getLast? =
          ((s :: rest).map (·.p2)).getLast? := by
        rcases rest with _ | ⟨t, rest'⟩ <;> simp [List.getLast?_cons_cons]
      rw [h1, hclosed]

/-- C2 witness: a closed triangle stitched from three segments. -/
theorem stitch_one_closed_loop_witness :
    stitchSegments [⟨⟨0, 0⟩, ⟨1, 0⟩⟩, ⟨⟨1, 0⟩, ⟨1, 1⟩⟩, ⟨⟨1, 1⟩, ⟨0, 0⟩⟩] =
      [[⟨0, 0⟩, ⟨1, 0⟩, ⟨1, 1⟩, ⟨0, 0⟩]] ∧
    ([(⟨0, 0⟩ : Vec2), ⟨1, 0⟩, ⟨1, 1⟩, ⟨0, 0⟩]).length = 3 + 1 ∧
    ([(⟨0, 0⟩ : Vec2), ⟨1, 0⟩, ⟨1, 1⟩, ⟨0, 0⟩]).getLast? = some ⟨0, 0⟩ := by
  have := stitch_one_closed_loop
    [⟨⟨0, 0⟩, ⟨1, 0⟩⟩, ⟨⟨1, 0⟩, ⟨1, 1⟩⟩, ⟨⟨1, 1⟩, ⟨0, 0⟩⟩]
    ⟨⟨0, 0⟩, ⟨1, 0⟩⟩ rfl (by constructor <;> simp) (by simp)
  simpa using this

/-- C2 counterexample: stitching a closed triangle (three segments, three
distinct corner points) stores 4 points, not 3 — the duplicate start/end
point is kept and the stored points do repeat the start point at the end. -/
theorem stitch_keeps_duplicate_start_end :
    stitchSegments [⟨⟨0, 0⟩, ⟨1, 0⟩⟩, ⟨⟨1, 0⟩, ⟨1, 1⟩⟩, ⟨⟨1, 1⟩, ⟨0, 0⟩⟩] =
      [[⟨0, 0⟩, ⟨1, 0⟩, ⟨1, 1⟩, ⟨0, 0⟩]] ∧
    ([(⟨0, 0⟩ : Vec2), ⟨1, 0⟩, ⟨1, 1⟩, ⟨0, 0⟩]).length = 4 ∧
    ((⟨0, 0⟩ : Vec2) ≠ ⟨1, 0⟩ ∧ (⟨0, 0⟩ : Vec2) ≠ ⟨1, 1⟩ ∧ (⟨1, 0⟩ : Vec2) ≠ ⟨1, 1⟩) ∧
    ([(⟨0, 0⟩ : Vec2), ⟨1, 0⟩, ⟨1, 1⟩, ⟨0, 0⟩]).head? =
      ([(⟨0, 0⟩ : Vec2), ⟨1, 0⟩, ⟨1, 1⟩, ⟨0, 0⟩]).getLast? := by
  refine ⟨?_, by simp, by refine ⟨?_, ?_, ?_⟩ <;> (intro h; simp at h), by simp⟩
  · with_unfolding_all decide

/-! ## Plane normalizer (`model.rs`: `load_model`'s entity loop) -/

/-- A 3D point or vector from the DXF input. -/
structure Vec3 where
  x : ℚ
  y : ℚ
  z : ℚ
deriving DecidableEq, Repr

/-- Embeds `ModelMode` (`model.rs`): which axis is "up". -/
inductive ModelMode where
  | ZUp
  | XUp
  | YUp
deriving DecidableEq, Repr

/-- Embeds `ModelLoadError` (`model.rs`). -/
inductive ModelLoadError where
  | ModelNotInPlane
deriving DecidableEq, Repr

deriving instance DecidableEq for Except

/-- An inbound drawing entity: a line record with two 3D endpoints and an
extrusion direction, or any non-line entity (only counted, never read). -/
inductive DxfEntity where
  | line (p1 p2 extrusion : Vec3)
  | other
deriving DecidableEq, Repr

/-- Whether an entity is a non-line entity (the `EntityType::Line` match
failure in the loop). -/
def DxfEntity.isOther : DxfEntity → Bool
  | .line _ _ _ => false
  | .other => true

/-- The coordinate projection the `match mode` block of `load_model`
performs on each endpoint: Z-up keeps x/y, X-up takes y/z, Y-up takes x/z. -/
def projectPoint (mode : ModelMode) (p : Vec3) : Vec2 :=
  match mode with
  | .ZUp => ⟨p.x, p.y⟩
  | .XUp => ⟨p.y, p.z⟩
  | .YUp => ⟨p.x, p.z⟩

/-- The axis detection the `i == 0` branch of `load_model` performs on the
extrusion direction: the components are compared to `1.0` individually, in
the order x, y, z; no other component is inspected. -/
def axisMode (up : Vec3) : Option ModelMode :=
  if up.x = 1 then some .XUp
  else if up.y = 1 then some .YUp
  else if up.z = 1 then some .ZUp
  else none

/-- The loop state of `load_model`: accumulated lines, the aggregate non-line
warning flag, the fixed mode and the current line buffer. -/
structure LoadState where
  lines : List GLineString
  line_warning : Bool
  mode : ModelMode
  line_builder : LineBuilder
deriving DecidableEq, Repr

/-- One iteration of `load_model`'s entity loop, at enumeration index `i`
(the index counts every entity, non-line entities included): non-line
entities set the warning flag and are skipped; on the entity at index 0 — and
only there — a line's extrusion direction selects the mode or fails with
`ModelNotInPlane`; each line's endpoints are projected with the current mode
and handed to the stitching buffer. -/
def loadStep (i : ℕ) (st : LoadState) (e : DxfEntity) : Except ModelLoadError LoadState :=
  match e with
  | .other => .ok { st with line_warning := true }
  | .line p1 p2 up =>
    let modeRes : Except ModelLoadError ModelMode :=
      if i = 0 then
        match axisMode up with
        | some m => .ok m
        | none => .error ModelLoadError.ModelNotInPlane
      else .ok st.mode
    match modeRes with
    | .error e => .error e
    | .ok mode =>
      let q1 := projectPoint mode p1
      let q2 := projectPoint mode p2
      match st.line_builder.try_add ⟨q1, q2⟩ with
      | .ok b => .ok { st with mode := mode, line_builder := b }
      | .error s =>
        .ok { st with mode := mode, lines := st.lines ++ [st.line_builder.finish], line_builder := [s.p1, s.p2] }

/-- The entity loop of `load_model`, with the running enumeration index and
the early `bail!` on the plane error. -/
def loadLoop (st : LoadState) : ℕ → List DxfEntity → Except ModelLoadError LoadState
  | _, [] => .ok st
  | i, e :: rest =>
    match loadStep i st e with
    | .error err => .error err
    | .ok st' => loadLoop st' (i + 1) rest

/-- Embeds the entity loop of `load_model` (`model.rs`), from the enumerated
entity stream to the stitched line list and the aggregate warning flag (model
construction from the lines is a separate step, `Shape.from_lines`). -/
def load_entities (es : List DxfEntity) : Except ModelLoadError (List GLineString × Bool) :=
  match loadLoop ⟨[], false, ModelMode.ZUp, []⟩ 0 es with
  | .error err => .error err
  | .ok st =>
    .ok (if st.line_builder.isEmpty then st.lines else st.lines ++ [st.line_builder.finish],
      st.line_warning)

/-- The segment every line entity contributes under a fixed mode; non-line
entities contribute nothing. -/
def segsOfMode (m : ModelMode) (es : List DxfEntity) : List Segment :=
  es.filterMap fun e =>
    match e with
    | .line p1 p2 _ => some ⟨projectPoint m p1, projectPoint m p2⟩
    | .other => none

theorem loadStep_line_ne_zero (i : ℕ) (hi : i ≠ 0) (st : LoadState) (p1 p2 up : Vec3) :
    loadStep i st (.line p1 p2 up) =
      .ok { st with
        lines := (stitchStep (st.lines, st.line_builder)
          ⟨projectPoint st.mode p1, projectPoint st.mode p2⟩).1,
        line_builder := (stitchStep (st.lines, st.line_builder)
          ⟨projectPoint st.mode p1, projectPoint st.mode p2⟩).2 } := by
  simp only [loadStep, hi, if_false, reduceIte, stitchStep]
  cases h : LineBuilder.try_add st.line_builder
    ⟨projectPoint st.mode p1, projectPoint st.mode p2⟩ <;>
    simp [h, LineBuilder.finish]

theorem loadLoop_tail (es : List DxfEntity) (n : ℕ) (hn : n ≠ 0) (st : LoadState) :
    loadLoop st n es =
      .ok { st with
        lines := ((segsOfMode st.mode es).foldl stitchStep (st.lines, st.line_builder)).1,
        line_builder := ((segsOfMode st.mode es).foldl stitchStep (st.lines, st.line_builder)).2,
        line_warning := st.line_warning || es.any DxfEntity.isOther } := by
  induction es generalizing n st with
  | nil => simp [loadLoop, segsOfMode]
  | cons e es ih =>
    cases e with
    | other =>
      rw [loadLoop]
      simp only [loadStep]
      rw [ih (n + 1) (by omega)]
      simp [segsOfMode, DxfEntity.isOther]
    | line p1 p2 up =>
      rw [loadLoop, loadStep_line_ne_zero n hn st p1 p2 up]
      dsimp only
      rw [ih (n + 1) (by omega)]
      simp [segsOfMode, DxfEntity.isOther]

/-- C5 amended: `load_entities` fails with `ModelNotInPlane` exactly when the
first entity — not the first line entity — is a line whose extrusion has
x-component ≠ 1, y-component ≠ 1 and z-component ≠ 1 (the components are
compared to 1 individually, so a non-unit vector with some component equal
to 1 is accepted). When the first entity is a line passing that test, the
selected axis is fixed and every line entity of the drawing is projected with
that one mapping, with no re-detection; when the first entity is not a line,
no check occurs and Z-up is assumed; non-line entities are skipped and
surface a single aggregate warning flag. -/
theorem load_entities_spec :
    (∀ p1 p2 up tail, up.x ≠ 1 → up.y ≠ 1 → up.z ≠ 1 →
      load_entities (.line p1 p2 up :: tail) = .error .ModelNotInPlane) ∧
    (∀ p1 p2 up tail m, axisMode up = some m →
      load_entities (.line p1 p2 up :: tail) =
        .ok (stitchSegments (segsOfMode m (.line p1 p2 up :: tail)),
             (DxfEntity.line p1 p2 up :: tail).any DxfEntity.isOther)) ∧
    (∀ tail, load_entities (.other :: tail) =
      .ok (stitchSegments (segsOfMode .ZUp (.other :: tail)), true)) ∧
    load_entities [] = .ok ([], false) := by
  refine ⟨?_, ?_, ?_, rfl⟩
  · intro p1 p2 up tail hx hy hz
    rw [load_entities, loadLoop]
    simp [loadStep, axisMode, hx, hy, hz]
  · intro p1 p2 up tail m hm
    have hstep : loadStep 0 (⟨[], false, ModelMode.ZUp, []⟩ : LoadState) (.line p1 p2 up) =
        .ok ⟨[], false, m, [projectPoint m p1, projectPoint m p2]⟩ := by
      simp [loadStep, hm, LineBuilder.try_add]
    rw [load_entities, loadLoop, hstep]
    dsimp only
    rw [loadLoop_tail tail (0 + 1) (by omega) _]
    have hseed : stitchStep ([], []) ⟨projectPoint m p1, projectPoint m p2⟩ =
        ([], [projectPoint m p1, projectPoint m p2]) := by
      simp [stitchStep, LineBuilder.try_add]
    simp only [stitchSegments, segsOfMode, List.filterMap_cons, List.foldl_cons,
      List.any_cons, DxfEntity.isOther, Bool.false_or, hseed]
  · intro tail
    rw [load_entities, loadLoop]
    simp only [loadStep]
    rw [loadLoop_tail tail (0 + 1) (by omega) _]
    simp only [stitchSegments, segsOfMode, List.filterMap_cons, Bool.true_or,
      List.any_cons, DxfEntity.isOther]

/-- C5 witness: a failing first line entity, an accepted Z-up drawing, and a
skipped leading non-line entity. -/
theorem load_entities_spec_witness :
    load_entities [.line ⟨0, 0, 0⟩ ⟨1, 1, 0⟩ ⟨3/10, 3/10, 9/10⟩] = .error .ModelNotInPlane ∧
    load_entities [.line ⟨0, 0, 5⟩ ⟨2, 3, 5⟩ ⟨0, 0, 1⟩] = .ok ([[⟨0, 0⟩, ⟨2, 3⟩]], false) ∧
    load_entities [.other] = .ok ([], true) := by
  refine ⟨load_entities_spec.1 ⟨0, 0, 0⟩ ⟨1, 1, 0⟩ ⟨3/10, 3/10, 9/10⟩ []
      (by norm_num) (by norm_num) (by norm_num), ?_, ?_⟩
  · rw [load_entities_spec.2.1 ⟨0, 0, 5⟩ ⟨2, 3, 5⟩ ⟨0, 0, 1⟩ [] .ZUp
      (by norm_num [axisMode])]
    with_unfolding_all decide
  · rw [load_entities_spec.2.2.1 []]
    with_unfolding_all decide

/-- C5 counterexample: the axis check inspects only the entity at index 0.
With a non-line first entity, a line whose extrusion direction `(0.3, 0.3,
0.9)` is not axis-aligned loads successfully (Z-up is silently assumed), and
even on a first line entity the check compares single components to 1, so the
non-unit extrusion `(1, 1/2, 0)` is accepted as X-up — both contradict
"fails with ModelNotInPlane iff the first line entity's extrusion direction
is not exactly the unit X, unit Y, or unit Z axis vector". -/
theorem load_entities_first_entity_only :
    load_entities [.other, .line ⟨0, 0, 0⟩ ⟨2, 3, 0⟩ ⟨3/10, 3/10, 9/10⟩] =
      .ok ([[⟨0, 0⟩, ⟨2, 3⟩]], true) ∧
    load_entities [.line ⟨0, 1, 2⟩ ⟨0, 3, 4⟩ ⟨1, 1/2, 0⟩] =
      .ok ([[⟨1, 2⟩, ⟨3, 4⟩]], false) := by
  constructor <;> with_unfolding_all decide

/-! ## Shape builder (`model.rs`: `Shape`, `Shape::from_lines`,
`Model::point_within`)

The `geo` crate supplies `Polygon`, `unsigned_area`, `contains` and
`convex_hull`. They are embedded as follows:
* ring closing and the shoelace area are taken from `geo`'s definitions;
* point-in-polygon containment (`Contains<Coord> for Polygon`) is the
  even-odd crossing rule on the closed rings, which agrees with `geo`'s
  interior test at every point not on a ring edge (all concrete points used
  below are strictly inside or strictly outside every ring);
* the convex hull is computed with a monotone chain; the hull of a point set
  is unique as a region, so containment in it agrees with `geo`'s quick-hull
  result;
* polygon-in-polygon containment (`Contains<Polygon> for Polygon`), used by
  `Shape::from_lines` only as an opaque test to absorb holes, is a parameter
  `pc` of the embedded `from_lines`; the executable stand-in `geoContains`
  below instantiates it in concrete examples. -/

/-- Embeds `geo::Polygon`: an exterior ring and interior rings, all kept
closed (first coordinate repeated at the end) by the smart constructors. -/
structure GPolygon where
  exterior : List Vec2
  interiors : List (List Vec2)
deriving DecidableEq, Repr

/-- `geo::LineString::close`: append the first coordinate when the line is
not closed (a list whose last element differs from its first); the empty
line counts as closed. -/
def closeRing (l : List Vec2) : List Vec2 :=
  match l with
  | [] => []
  | x :: xs => if (x :: xs).getLast? = some x then x :: xs else (x :: xs) ++ [x]

/-- `geo::Polygon::new`: closes the exterior and every interior ring. -/
def GPolygon.new (exterior : List Vec2) (interiors : List (List Vec2)) : GPolygon :=
  ⟨closeRing exterior, interiors.map closeRing⟩

/-- `geo::Polygon::interiors_push`: closes the pushed ring and appends it. -/
def GPolygon.interiors_push (p : GPolygon) (ring : List Vec2) : GPolygon :=
  { p with interiors := p.interiors ++ [closeRing ring] }

/-- Twice the signed shoelace area of a closed ring (`geo`'s
`get_linestring_area` sum). -/
def ringTwiceArea : List Vec2 → ℚ
  | [] => 0
  | [_] => 0
  | p :: q :: rest => (p.x * q.y - q.x * p.y) + ringTwiceArea (q :: rest)

/-- `geo`'s signed area of a polygon: exterior plus interiors. -/
def GPolygon.signed_area (p : GPolygon) : ℚ :=
  (ringTwiceArea p.exterior + (p.interiors.map ringTwiceArea).sum) / 2

/-- `geo::Area::unsigned_area`. -/
def GPolygon.unsigned_area (p : GPolygon) : ℚ := |p.signed_area|

/-- Whether the horizontal ray from `pt` towards `+x` crosses the edge
`a`–`b` (the standard even-odd crossing test). -/
def edgeCrossesRay (pt a b : Vec2) : Bool :=
  (decide (pt.y < a.y) != decide (pt.y < b.y)) &&
    decide (pt.x < a.x + (pt.y - a.y) * (b.x - a.x) / (b.y - a.y))

/-- Number of ray crossings over the consecutive edges of a closed ring. -/
def ringCrossings (pt : Vec2) : List Vec2 → ℕ
  | [] => 0
  | [_] => 0
  | a :: b :: rest => (if edgeCrossesRay pt a b then 1 else 0) + ringCrossings pt (b :: rest)

/-- Even-odd membership of a point in the region bounded by a closed ring. -/
def coordInRing (pt : Vec2) (ring : List Vec2) : Bool :=
  ringCrossings pt ring % 2 = 1

/-- Models `geo`'s `Contains<Coord> for Polygon`: strictly inside the
exterior ring and outside every interior ring (hole). -/
def GPolygon.containsCoord (p : GPolygon) (pt : Vec2) : Bool :=
  coordInRing pt p.exterior && p.interiors.all (fun ring => !coordInRing pt ring)

/-- Executable stand-in for `geo`'s `Contains<Polygon> for Polygon` (used by
`Shape::from_lines` only as an opaque hole-absorption test, over which the
embedded `from_lines` is parameterised): every vertex of the candidate's
exterior is strictly inside the outline. It agrees with `geo` on the concrete
strictly-nested or strictly-disjoint polygons used below. -/
def geoContains (outline poly : GPolygon) : Bool :=
  poly.exterior.all (fun v => outline.containsCoord v)

/-- 2D cross product of `a - o` and `b - o` (turn direction at `a`). -/
def cross (o a b : Vec2) : ℚ :=
  (a.x - o.x) * (b.y - o.y) - (a.y - o.y) * (b.x - o.x)

/-- Lexicographic insertion (by `x`, then `y`) for the hull sweep. -/
def insertLex (x : Vec2) : List Vec2 → List Vec2
  | [] => [x]
  | y :: ys =>
    if x.x < y.x ∨ (x.x = y.x ∧ x.y ≤ y.y) then x :: y :: ys else y :: insertLex x ys

/-- Lexicographic sort for the hull sweep. -/
def sortLex (l : List Vec2) : List Vec2 := l.foldr insertLex []

/-- Pop the accumulated chain (stored reversed) while the new point makes a
non-left turn with its last two points. -/
def popBad (p : Vec2) : List Vec2 → List Vec2
  | b :: a :: rest => if cross a b p ≤ 0 then popBad p (a :: rest) else b :: a :: rest
  | l => l

/-- One monotone-chain half hull over lexicographically ordered points. -/
def halfHull (pts : List Vec2) : List Vec2 :=
  (pts.foldl (fun acc p => p :: popBad p acc) []).reverse

/-- Convex hull of a coordinate set as a closed-ring polygon (monotone
chain); embeds `geo::ConvexHull::convex_hull`, whose result region is the
same unique convex hull. -/
def convexHull (pts : List Vec2) : GPolygon :=
  let s := sortLex pts
  let lower := halfHull s
  let upper := halfHull s.reverse
  ⟨closeRing (lower.dropLast ++ upper.dropLast), []⟩

/-- All coordinates of a list of polygons (`geo`'s `CoordsIter` over a
`MultiPolygon`: exteriors and interiors). -/
def multiPolygonCoords (ps : List GPolygon) : List Vec2 :=
  ps.flatMap (fun p => p.exterior ++ p.interiors.flatten)

/-- Embeds `Shape` (`model.rs`): polygon parts, the precomputed convex hull,
and the bounding-box corners. -/
structure Shape where
  parts : List GPolygon
  hull : GPolygon
  min : Vec2
  max : Vec2
deriving DecidableEq, Repr

/-- The polygon (with its `unsigned_area`) built from one input loop:
`Polygon::new(l, Vec::new())` then `unsigned_area`. -/
def polyOfLine (l : GLineString) : GPolygon × ℚ :=
  let p := GPolygon.new l []
  (p, p.unsigned_area)

/-- The per-loop bounding-box corners and polygon of the closure in
`Shape::from_lines`; the four `.unwrap()`s on an empty loop are the `none`
case. -/
def lineEntry (l : GLineString) : Option ((GPolygon × ℚ) × (ℚ × ℚ) × (ℚ × ℚ)) :=
  match (l.map Vec2.x).min?, (l.map Vec2.y).min?,
      (l.map Vec2.x).max?, (l.map Vec2.y).max? with
  | some min_x, some min_y, some max_x, some max_y =>
    some (polyOfLine l, (min_x, min_y), (max_x, max_y))
  | _, _, _, _ => none

/-- The per-loop pass of `Shape::from_lines` over every input loop, in
order (the `.map(...).collect()` of the source, in `Option` because each
loop's corner computation can panic). -/
def mapEntries : List GLineString → Option (List ((GPolygon × ℚ) × (ℚ × ℚ) × (ℚ × ℚ)))
  | [] => some []
  | l :: rest =>
    match lineEntry l, mapEntries rest with
    | some e, some es => some (e :: es)
    | _, _ => none

/-- Stable insertion by ascending area; `Vec::sort_by` is a stable sort and
the stable ascending permutation of a list is unique, so any stable sort
embeds it. -/
def insertByArea (x : GPolygon × ℚ) : List (GPolygon × ℚ) → List (GPolygon × ℚ)
  | [] => [x]
  | y :: ys => if x.2 ≤ y.2 then x :: y :: ys else y :: insertByArea x ys

/-- The `polys.sort_by(area ascending)` call of `Shape::from_lines`. -/
def sortByArea (l : List (GPolygon × ℚ)) : List (GPolygon × ℚ) :=
  l.foldr insertByArea []

/-- `Iterator::min_by` over `(index, area)` pairs: the first element among
equal minima is kept (a later element replaces the accumulator only when its
area is strictly smaller). -/
def minByIdx (l : List (ℕ × ℚ)) : Option (ℕ × ℚ) :=
  l.foldl (fun acc p =>
    match acc with
    | none => some p
    | some q => if p.2 < q.2 then some p else some q) none

/-- The inner `for outline in top_level.iter_mut()` search of
`Shape::from_lines`: the first already-found region containing the loop
absorbs its exterior ring as a hole; `none` when no region contains it. -/
def absorbFirst (pc : GPolygon → GPolygon → Bool) :
    List GPolygon → GPolygon → Option (List GPolygon)
  | [], _ => none
  | outline :: rest, poly =>
    if pc outline poly then some (outline.interiors_push poly.exterior :: rest)
    else (absorbFirst pc rest poly).map (outline :: ·)

/-- One step of the `'poly_iter` loop: absorb into the first containing
region, or append as a new top-level region. -/
def assignLoop (pc : GPolygon → GPolygon → Bool) (tl : List GPolygon) (poly : GPolygon) :
    List GPolygon :=
  match absorbFirst pc tl poly with
  | some tl' => tl'
  | none => tl ++ [poly]

/-- Embeds `Shape::from_lines` (`model.rs`), parameterised over the
polygon-containment predicate `pc` (`geo`'s `Contains<Polygon> for
Polygon`): per-loop bounding boxes and areas (panicking on an empty loop),
the global bounding box (the `f64::MAX`/`f64::MIN` seeds never escape — on
an empty loop list the construction panics, here `none`, exactly as the
`min_by(...).unwrap()` of the source does), the stable ascending area sort,
the `min_by` selection of the first top-level region, the absorption loop,
and the convex hull of the parts. -/
def Shape.from_lines (pc : GPolygon → GPolygon → Bool) (lines : List GLineString) :
    Option Shape :=
  match mapEntries lines with
  | none => none
  | some entries =>
    let polys := entries.map Prod.fst
    match (entries.map (fun e => e.2.1.1)).min?, (entries.map (fun e => e.2.1.2)).min?,
        (entries.map (fun e => e.2.2.1)).max?, (entries.map (fun e => e.2.2.2)).max? with
    | some gminx, some gminy, some gmaxx, some gmaxy =>
      let sorted := sortByArea polys
      match minByIdx ((sorted.map Prod.snd).enum) with
      | none => none
      | some li =>
        match sorted.get? li.1 with
        | none => none
        | some first =>
          let remaining := sorted.eraseIdx li.1
          let top_level := remaining.foldl (fun tl p => assignLoop pc tl p.1) [first.1]
          some ⟨top_level, convexHull (multiPolygonCoords top_level),
            ⟨gminx, gminy⟩, ⟨gmaxx, gmaxy⟩⟩
    | _, _, _, _ => none

/-- Embeds `Model` (`model.rs`): an immutable shape plus a name. -/
structure Model where
  shape : Shape
  name : String
deriving DecidableEq, Repr

/-- Embeds `Model::new`: build the shape from the loops (`none` standing for
the panic of `Shape::from_lines` on degenerate input). -/
def Model.new (pc : GPolygon → GPolygon → Bool) (lines : List GLineString) (name : String) :
    Option Model :=
  (Shape.from_lines pc lines).map (fun s => ⟨s, name⟩)

/-- Embeds `Model::point_within` (`model.rs`): reject outside the bounding
box, then test the point against the precomputed convex hull — not against
the polygon parts. -/
def Model.point_within (m : Model) (point : Vec2) : Bool :=
  let x_bb := decide (point.x ≥ m.shape.min.x) && decide (point.x ≤ m.shape.max.x)
  let y_bb := decide (point.y ≥ m.shape.min.y) && decide (point.y ≤ m.shape.max.y)
  if !(x_bb && y_bb) then false
  else m.shape.hull.containsCoord point

/-- Spec-side precise polygon-with-holes containment of the union of regions
minus holes (what C1 claims `point_within` computes). -/
def shapePreciseContains (s : Shape) (pt : Vec2) : Bool :=
  s.parts.any (fun p => p.containsCoord pt)

/-! ### Shape-construction lemmas (C6, C10, C1) -/

theorem lineEntry_fst (l : GLineString) (e : (GPolygon × ℚ) × (ℚ × ℚ) × (ℚ × ℚ))
    (he : lineEntry l = some e) : e.1 = polyOfLine l := by
  unfold lineEntry at he
  split at he
  · simp only [Option.some.injEq] at he
    subst he
    rfl
  · simp at he

theorem mapEntries_fst (lines : List GLineString)
    (entries : List ((GPolygon × ℚ) × (ℚ × ℚ) × (ℚ × ℚ)))
    (h : mapEntries lines = some entries) :
    entries.map Prod.fst = lines.map polyOfLine := by
  induction lines generalizing entries with
  | nil =>
    unfold mapEntries at h
    simp_all
  | cons l rest ih =>
    unfold mapEntries at h
    cases he : lineEntry l with
    | none => rw [he] at h; simp at h
    | some e =>
      rw [he] at h
      cases hr : mapEntries rest with
      | none => rw [hr] at h; simp at h
      | some es =>
        rw [hr] at h
        simp only [Option.some.injEq] at h
        subst h
        simp [ih es hr, lineEntry_fst l e he]

theorem lineEntry_nil : lineEntry [] = none := rfl

theorem mapEntries_with_empty_loop (lines : List GLineString) (h : [] ∈ lines) :
    mapEntries lines = none := by
  induction lines with
  | nil => simp at h
  | cons l rest ih =>
    rcases List.mem_cons.mp h with h | h
    · subst h
      unfold mapEntries
      rw [lineEntry_nil]
    · unfold mapEntries
      rw [ih h]
      cases lineEntry l <;> rfl

theorem insertByArea_mem (x y : GPolygon × ℚ) (l : List (GPolygon × ℚ)) :
    y ∈ insertByArea x l ↔ y = x ∨ y ∈ l := by
  induction l with
  | nil => simp [insertByArea]
  | cons z zs ih =>
    unfold insertByArea
    by_cases h : x.2 ≤ z.2 <;> (simp [h, ih]; try tauto)

theorem sortByArea_mem (y : GPolygon × ℚ) (l : List (GPolygon × ℚ)) :
    y ∈ sortByArea l ↔ y ∈ l := by
  induction l with
  | nil => simp [sortByArea]
  | cons z zs ih =>
    simp only [sortByArea, List.foldr_cons] at *
    rw [insertByArea_mem]
    simp [ih]

theorem insertByArea_sorted (x : GPolygon × ℚ) (l : List (GPolygon × ℚ))
    (hl : l.Pairwise (fun a b => a.2 ≤ b.2)) :
    (insertByArea x l).Pairwise (fun a b => a.2 ≤ b.2) := by
  induction l with
  | nil => simp [insertByArea]
  | cons z zs ih =>
    rw [List.pairwise_cons] at hl
    unfold insertByArea
    by_cases h : x.2 ≤ z.2
    · simp only [h, if_true, reduceIte]
      rw [List.pairwise_cons]
      refine ⟨?_, List.Pairwise.cons hl.1 hl.2⟩
      intro b hb
      rcases List.mem_cons.mp hb with hb | hb
      · exact hb ▸ h
      · exact le_trans h (hl.1 b hb)
    · simp only [h, if_false, reduceIte]
      rw [List.pairwise_cons]
      refine ⟨?_, ih hl.2⟩
      intro b hb
      rcases (insertByArea_mem x b zs).mp hb with hb | hb
      · exact hb ▸ le_of_lt (lt_of_not_le h)
      · exact hl.1 b hb

theorem sortByArea_sorted (l : List (GPolygon × ℚ)) :
    (sortByArea l).Pairwise (fun a b => a.2 ≤ b.2) := by
  induction l with
  | nil => simp [sortByArea]
  | cons z zs ih => exact insertByArea_sorted z (sortByArea zs) ih

theorem minByIdx_keeps (l : List (ℕ × ℚ)) (q : ℕ × ℚ) (h : ∀ p ∈ l, ¬(p.2 < q.2)) :
    l.foldl (fun acc p =>
      match acc with
      | none => some p
      | some q => if p.2 < q.2 then some p else some q) (some q) = some q := by
  induction l with
  | nil => rfl
  | cons p l ih =>
    rw [List.foldl_cons]
    have hp : ¬(p.2 < q.2) := h p (by simp)
    dsimp only
    rw [if_neg hp]
    exact ih (fun r hr => h r (by simp [hr]))

theorem snd_mem_of_mem_enumFrom (l : List ℚ) (n : ℕ) (p : ℕ × ℚ)
    (h : p ∈ List.enumFrom n l) : p.2 ∈ l := by
  induction l generalizing n with
  | nil => simp [List.enumFrom] at h
  | cons a l ih =>
    rw [List.enumFrom] at h
    rcases List.mem_cons.mp h with h | h
    · simp [h]
    · exact List.mem_cons_of_mem a (ih (n + 1) h)

theorem minByIdx_of_sorted_head (a : ℚ) (rest : List ℚ) (h : ∀ b ∈ rest, a ≤ b) :
    minByIdx ((a :: rest).enum) = some (0, a) := by
  have henum : (a :: rest).enum = (0, a) :: List.enumFrom 1 rest := rfl
  rw [minByIdx, henum, List.foldl_cons]
  exact minByIdx_keeps _ (0, a)
    (fun p hp => not_lt_of_le (h p.2 (snd_mem_of_mem_enumFrom rest 1 p hp)))

/-- C6: whenever `Shape::from_lines` succeeds, the stable ascending-area sort
of the per-loop polygons starts with a loop of minimum unsigned area, that
loop is the first (seed) top-level region, and the shape's parts are exactly
the fold of the remaining loops that lets the first containing top-level
region absorb a loop as a hole and appends a loop contained in no region as a
new top-level region — for every containment predicate `pc` instantiating
`geo`'s polygon containment. -/
theorem from_lines_construction_rule (pc : GPolygon → GPolygon → Bool)
    (lines : List GLineString) (s : Shape)
    (hs : Shape.from_lines pc lines = some s) :
    ∃ first rest, sortByArea (lines.map polyOfLine) = first :: rest ∧
      s.parts = rest.foldl (fun tl p => assignLoop pc tl p.1) [first.1] ∧
      first ∈ lines.map polyOfLine ∧
      (∀ q ∈ lines.map polyOfLine, first.2 ≤ q.2) := by
  unfold Shape.from_lines at hs
  cases hentries : mapEntries lines with
  | none => rw [hentries] at hs; simp at hs
  | some entries =>
    rw [hentries] at hs
    simp only at hs
    have hpolys : entries.map Prod.fst = lines.map polyOfLine :=
      mapEntries_fst lines entries hentries
    cases h1 : (entries.map (fun e => e.2.1.1)).min? with
    | none => rw [h1] at hs; simp at hs
    | some gminx =>
    cases h2 : (entries.map (fun e => e.2.1.2)).min? with
    | none => rw [h1, h2] at hs; simp at hs
    | some gminy =>
    cases h3 : (entries.map (fun e => e.2.2.1)).max? with
    | none => rw [h1, h2, h3] at hs; simp at hs
    | some gmaxx =>
    cases h4 : (entries.map (fun e => e.2.2.2)).max? with
    | none => rw [h1, h2, h3, h4] at hs; simp at hs
    | some gmaxy =>
    rw [h1, h2, h3, h4] at hs
    simp only at hs
    rcases hsort : sortByArea (entries.map Prod.fst) with _ | ⟨first, rest⟩
    · rw [hsort] at hs
      simp [minByIdx] at hs
    · rw [hsort] at hs
      have hsorted := sortByArea_sorted (entries.map Prod.fst)
      rw [hsort, List.pairwise_cons] at hsorted
      have hmin : minByIdx (((first :: rest).map Prod.snd).enum) = some (0, first.2) := by
        rw [List.map_cons]
        exact minByIdx_of_sorted_head first.2 (rest.map Prod.snd)
          (by
            intro b hb
            obtain ⟨q, hq, hqb⟩ := List.mem_map.mp hb
            exact hqb ▸ hsorted.1 q hq)
      rw [hmin] at hs
      simp only [List.get?_cons_zero, List.eraseIdx_cons_zero, Option.some.injEq] at hs
      refine ⟨first, rest, hpolys ▸ hsort, ?_, ?_, ?_⟩
      · rw [← hs]
      · rw [← hpolys, ← sortByArea_mem, hsort]
        simp
      · intro q hq
        rw [← hpolys, ← sortByArea_mem, hsort] at hq
        rcases List.mem_cons.mp hq with hq | hq
        · exact hq ▸ le_refl _
        · exact hsorted.1 q hq

theorem absorbFirst_some_ne_nil (pc : GPolygon → GPolygon → Bool)
    (tl tl' : List GPolygon) (poly : GPolygon)
    (h : absorbFirst pc tl poly = some tl') : tl' ≠ [] := by
  induction tl generalizing tl' with
  | nil => simp [absorbFirst] at h
  | cons outline rest ih =>
    unfold absorbFirst at h
    by_cases hc : pc outline poly
    · rw [if_pos hc] at h
      simp only [Option.some.injEq] at h
      subst h
      simp
    · rw [if_neg hc] at h
      cases hi : absorbFirst pc rest poly with
      | none => rw [hi] at h; simp at h
      | some l' =>
        rw [hi] at h
        simp only [Option.map_some', Option.some.injEq] at h
        subst h
        simp

theorem assignLoop_ne_nil (pc : GPolygon → GPolygon → Bool)
    (tl : List GPolygon) (poly : GPolygon) :
    assignLoop pc tl poly ≠ [] := by
  unfold assignLoop
  cases habs : absorbFirst pc tl poly with
  | none => simp
  | some tl' => exact absorbFirst_some_ne_nil pc tl tl' poly habs

theorem foldl_assign_ne_nil (pc : GPolygon → GPolygon → Bool)
    (l : List (GPolygon × ℚ)) (tl : List GPolygon) (h : tl ≠ []) :
    l.foldl (fun tl p => assignLoop pc tl p.1) tl ≠ [] := by
  induction l generalizing tl with
  | nil => exact h
  | cons p l ih => exact ih _ (assignLoop_ne_nil pc tl p.1)

/-- C10: `Shape::from_lines` — and hence model creation — panics (is
undefined, `none`) on an empty loop list and on any loop without
coordinates; whenever it does return a shape, that shape has at least one
top-level region, so a zero-loop `Shape` is unreachable through the public
construction path. -/
theorem from_lines_degenerate_inputs :
    (∀ pc, Shape.from_lines pc [] = none) ∧
    (∀ pc lines, [] ∈ lines → Shape.from_lines pc lines = none) ∧
    (∀ pc name, Model.new pc [] name = none) ∧
    (∀ pc lines s, Shape.from_lines pc lines = some s → s.parts ≠ []) := by
  have hempty : ∀ pc, Shape.from_lines pc [] = none := fun pc => rfl
  refine ⟨hempty, ?_, ?_, ?_⟩
  · intro pc lines h
    unfold Shape.from_lines
    rw [mapEntries_with_empty_loop lines h]
  · intro pc name
    rw [Model.new, hempty pc]
    rfl
  · intro pc lines s hs
    obtain ⟨first, rest, _, hparts, _, _⟩ := from_lines_construction_rule pc lines s hs
    rw [hparts]
    exact foldl_assign_ne_nil pc rest [first.1] (by simp)

/-! ### Concrete shapes for C1, C3 and C4 -/

/-- A placeholder shape for `Option.getD`; never the result of a successful
construction (its parts are empty). -/
def junkShape : Shape := ⟨[], ⟨[], []⟩, ⟨0, 0⟩, ⟨0, 0⟩⟩

/-- A closed L-shaped loop (6 corners): the square `[0,10]²` minus its upper
left block `[0,8)×(2,10]`. Concave, no holes. -/
def Lloop : GLineString := [⟨0, 0⟩, ⟨10, 0⟩, ⟨10, 10⟩, ⟨8, 10⟩, ⟨8, 2⟩, ⟨0, 2⟩, ⟨0, 0⟩]

/-- The shape `Shape::from_lines` builds from the L-loop. -/
def Lshape : Shape := (Shape.from_lines geoContains [Lloop]).getD junkShape

/-- The closed outer ring of the holed example shape: the square `[0,10]²`. -/
def outerRing : List Vec2 := [⟨0, 0⟩, ⟨10, 0⟩, ⟨10, 10⟩, ⟨0, 10⟩, ⟨0, 0⟩]

/-- The closed hole ring of the holed example shape: the square `[4,6]²`. -/
def holeRing : List Vec2 := [⟨4, 4⟩, ⟨6, 4⟩, ⟨6, 6⟩, ⟨4, 6⟩, ⟨4, 4⟩]

/-- A `Shape` value with one region carrying one hole, its hull and bounding
box computed as construction would (`hull` is the convex hull of all part
coordinates, `min`/`max` the bounding corners). -/
def holedShape : Shape :=
  ⟨[⟨outerRing, [holeRing]⟩],
   convexHull (multiPolygonCoords [⟨outerRing, [holeRing]⟩]),
   ⟨0, 0⟩, ⟨10, 10⟩⟩

/-- C1 counterexample: `point_within` is not precise polygon containment.
For the L-shape built by `Shape::from_lines`, the point `(5,5)` lies inside
the bounding box and outside the polygon (precise containment is false), yet
`point_within` answers true, because it tests the convex hull. Likewise for
the holed shape: `(5,5)` lies strictly inside the hole (inside the hole
ring), so the claim requires "not contained", but `point_within` answers
true. -/
theorem point_within_not_precise :
    Shape.from_lines geoContains [Lloop] = some Lshape ∧
    (Lshape.min.x ≤ 5 ∧ (5 : ℚ) ≤ Lshape.max.x ∧ Lshape.min.y ≤ 5 ∧ (5 : ℚ) ≤ Lshape.max.y) ∧
    Model.point_within ⟨Lshape, "L"⟩ ⟨5, 5⟩ = true ∧
    shapePreciseContains Lshape ⟨5, 5⟩ = false ∧
    coordInRing ⟨5, 5⟩ holeRing = true ∧
    Model.point_within ⟨holedShape, "holed"⟩ ⟨5, 5⟩ = true ∧
    shapePreciseContains holedShape ⟨5, 5⟩ = false := by
  refine ⟨?_, ?_, ?_, ?_, ?_, ?_, ?_⟩ <;> with_unfolding_all decide

theorem point_within_eq_bb_and_hull (m : Model) (p : Vec2) :
    m.point_within p =
      (decide (m.shape.min.x ≤ p.x ∧ p.x ≤ m.shape.max.x ∧
        m.shape.min.y ≤ p.y ∧ p.y ≤ m.shape.max.y) && m.shape.hull.containsCoord p) := by
  rw [Model.point_within]
  by_cases h1 : m.shape.min.x ≤ p.x <;> by_cases h2 : p.x ≤ m.shape.max.x <;>
    by_cases h3 : m.shape.min.y ≤ p.y <;> by_cases h4 : p.y ≤ m.shape.max.y <;>
    simp [h1, h2, h3, h4]

/-- C1 amended: the point-containment test rejects any point outside the
axis-aligned bounding box, and for every point inside the bounding box it
returns containment in the precomputed convex hull of the shape — not
precise polygon-with-holes containment. Consequently, on a shape with a
hole, a point strictly inside the hole tests as contained (the hull covers
it), and a point between the hole and the outer boundary also tests as
contained. -/
theorem point_within_spec :
    (∀ (m : Model) (p : Vec2),
      ¬(m.shape.min.x ≤ p.x ∧ p.x ≤ m.shape.max.x ∧
        m.shape.min.y ≤ p.y ∧ p.y ≤ m.shape.max.y) →
      m.point_within p = false) ∧
    (∀ (m : Model) (p : Vec2),
      (m.shape.min.x ≤ p.x ∧ p.x ≤ m.shape.max.x ∧
        m.shape.min.y ≤ p.y ∧ p.y ≤ m.shape.max.y) →
      m.point_within p = m.shape.hull.containsCoord p) ∧
    Model.point_within ⟨holedShape, "holed"⟩ ⟨5, 5⟩ = true ∧
    Model.point_within ⟨holedShape, "holed"⟩ ⟨5, 1⟩ = true := by
  refine ⟨?_, ?_, ?_, ?_⟩
  · intro m p h
    rw [point_within_eq_bb_and_hull]
    simp [h]
  · intro m p h
    rw [point_within_eq_bb_and_hull]
    simp [h]
  · with_unfolding_all decide
  · with_unfolding_all decide

/-- C1 witness: the amended theorem applied at the L-shape — a point outside
the bounding box is rejected, and for the in-box point `(5,5)` the result
equals the hull test. -/
theorem point_within_spec_witness :
    Model.point_within ⟨Lshape, "L"⟩ ⟨11, 5⟩ = false ∧
    Model.point_within ⟨Lshape, "L"⟩ ⟨5, 5⟩ = Lshape.hull.containsCoord ⟨5, 5⟩ :=
  ⟨point_within_spec.1 ⟨Lshape, "L"⟩ ⟨11, 5⟩ (by with_unfolding_all decide),
   point_within_spec.2.1 ⟨Lshape, "L"⟩ ⟨5, 5⟩ (by with_unfolding_all decide)⟩

/-- C6 witness: the construction rule applied to two disjoint squares of
distinct areas (the smaller seeds the top level, the larger is appended). -/
theorem from_lines_construction_rule_witness :
    ∃ first rest,
      sortByArea ([[⟨0, 0⟩, ⟨10, 0⟩, ⟨10, 10⟩, ⟨0, 10⟩, ⟨0, 0⟩],
        [⟨20, 0⟩, ⟨23, 0⟩, ⟨23, 3⟩, ⟨20, 3⟩, ⟨20, 0⟩]].map polyOfLine) = first :: rest ∧
      ((Shape.from_lines geoContains [[⟨0, 0⟩, ⟨10, 0⟩, ⟨10, 10⟩, ⟨0, 10⟩, ⟨0, 0⟩],
        [⟨20, 0⟩, ⟨23, 0⟩, ⟨23, 3⟩, ⟨20, 3⟩, ⟨20, 0⟩]]).getD junkShape).parts =
        rest.foldl (fun tl p => assignLoop geoContains tl p.1) [first.1] ∧
      first ∈ [[⟨0, 0⟩, ⟨10, 0⟩, ⟨10, 10⟩, ⟨0, 10⟩, ⟨0, 0⟩],
        [⟨20, 0⟩, ⟨23, 0⟩, ⟨23, 3⟩, ⟨20, 3⟩, ⟨20, 0⟩]].map polyOfLine ∧
      (∀ q ∈ [[⟨0, 0⟩, ⟨10, 0⟩, ⟨10, 10⟩, ⟨0, 10⟩, ⟨0, 0⟩],
        [⟨20, 0⟩, ⟨23, 0⟩, ⟨23, 3⟩, ⟨20, 3⟩, ⟨20, 0⟩]].map polyOfLine, first.2 ≤ q.2) :=
  from_lines_construction_rule geoContains
    [[⟨0, 0⟩, ⟨10, 0⟩, ⟨10, 10⟩, ⟨0, 10⟩, ⟨0, 0⟩],
      [⟨20, 0⟩, ⟨23, 0⟩, ⟨23, 3⟩, ⟨20, 3⟩, ⟨20, 0⟩]] _ (by with_unfolding_all decide)

/-- C10 witness: a loop list containing an empty loop is rejected, and the
successfully built L-shape has a nonempty part list. -/
theorem from_lines_degenerate_inputs_witness :
    Shape.from_lines geoContains [Lloop, []] = none ∧
    Lshape.parts ≠ [] :=
  ⟨from_lines_degenerate_inputs.2.1 geoContains [Lloop, []] (by simp),
   from_lines_degenerate_inputs.2.2.2 geoContains [Lloop] Lshape
    (by with_unfolding_all decide)⟩

/-! ## Toolpath generator (`model.rs`: the pass loop of
`Model::generate_gcode`, lines 264–268, and `Model::generate_gcode_lines`,
lines 288–351; `laser.rs`: `SequenceItem`) -/

/-- Embeds `SequenceItem` (`laser.rs`). -/
inductive SequenceItem where
  | GrblConst (passes power feed : ℕ)
  | GrblDyn (passes power feed : ℕ)
  | Custom (passes : ℕ) (laser_on laser_off power feed : String)
deriving DecidableEq, Repr

/-- `SequenceItem::passes`. -/
def SequenceItem.passes : SequenceItem → ℕ
  | .GrblConst passes _ _ => passes
  | .GrblDyn passes _ _ => passes
  | .Custom passes _ _ _ _ => passes

/-- Embeds `Model::lines_iter`: every part's exterior ring followed by its
interior rings, over all parts in order. -/
def Model.lines_iter (m : Model) : List (List Vec2) :=
  m.shape.parts.flatMap (fun p => p.exterior :: p.interiors)

/-- Embeds the per-line body of `Model::generate_gcode_lines`: the
"Start line i" comment block, the transformed points (the
`points_iter.next().unwrap()` on an empty ring is the `none` case), the rapid
move to the first point, the per-variant power/feed/laser-on block(s), one
cutting-motion coordinate block per remaining point, and the per-variant
laser-off block. -/
def generate_gcode_line (b : GcodeBuilder) (mt : EntityState) (seq : SequenceItem)
    (i : ℕ) (line : List Vec2) : Option GcodeBuilder :=
  let b := b.comment_block ("--- Start line " ++ natRepr i)
  match line.map (fun p => mt.transformPoint p) with
  | [] => none
  | start :: rest =>
    let b := (((b.rapid_motion).x start.x).y start.y).eob
    let b :=
      match seq with
      | .GrblConst _ power feed =>
        ((((b.cutting_motion).laser_power power).feed feed).laser_on_const).eob
      | .GrblDyn _ power feed =>
        ((((b.cutting_motion).laser_power power).feed feed).laser_on_dyn).eob
      | .Custom _ laser_on _ power feed =>
        ((((b.custom power).custom feed).eob).custom laser_on).eob
    let b := rest.foldl (fun b point => (((b.cutting_motion).x point.x).y point.y).eob) b
    match seq with
    | .GrblConst _ _ _ | .GrblDyn _ _ _ =>
      some ((((b.cutting_motion).laser_power 0).laser_off).eob)
    | .Custom _ _ laser_off _ _ => some ((b.custom laser_off).eob)

/-- The `for (i, line) in iter` loop of `Model::generate_gcode_lines`. -/
def genLinesLoop (mt : EntityState) (seq : SequenceItem) :
    GcodeBuilder → ℕ → List (List Vec2) → Option GcodeBuilder
  | b, _, [] => some b
  | b, i, line :: rest =>
    match generate_gcode_line b mt seq i line with
    | none => none
    | some b' => genLinesLoop mt seq b' (i + 1) rest

/-- Embeds `Model::generate_gcode_lines`. -/
def Model.generate_gcode_lines (m : Model) (b : GcodeBuilder) (mt : EntityState)
    (seq : SequenceItem) : Option GcodeBuilder :=
  genLinesLoop mt seq b 0 m.lines_iter

/-- The `for pass in 0..seq.passes()` loop of `Model::generate_gcode`
(lines 264–268): a "Begin pass" comment block, then one
`generate_gcode_lines` run, per pass. -/
def genPassLoop (m : Model) (mt : EntityState) (seq : SequenceItem) :
    GcodeBuilder → ℕ → ℕ → Option GcodeBuilder
  | b, _, 0 => some b
  | b, pass, k + 1 =>
    let b := b.comment_block ("-- Begin pass " ++ natRepr (pass + 1))
    match m.generate_gcode_lines b mt seq with
    | none => none
    | some b' => genPassLoop m mt seq b' (pass + 1) k

/-- Embeds the generation of one sequence item: the pass loop of
`Model::generate_gcode` (the one-time descriptive comment preceding it names
step index and settings and is not pass-repeated; it is outside the claims'
scope). -/
def Model.generate_seq_item (m : Model) (mt : EntityState) (seq : SequenceItem)
    (b : GcodeBuilder) : Option GcodeBuilder :=
  genPassLoop m mt seq b 0 seq.passes

/-- A plain cutting-motion coordinate block `G1 X.. Y..`. -/
def coordCutBlock (p : Vec2) : GcodeBlock := ⟨[.G 1, .X p.x, .Y p.y], none⟩

/-- A rapid positioning block `G0 X.. Y..`. -/
def rapidBlock (p : Vec2) : GcodeBlock := ⟨[.G 0, .X p.x, .Y p.y], none⟩

/-- A comment-only block. -/
def commentBlock (s : String) : GcodeBlock := ⟨[], some s⟩

/-- Spec-side: the blocks one loop contributes under `GrblConst`: the line
comment, one rapid move to the first transformed point, one cutting-motion
block carrying the power, the feed and the constant-power laser-on token,
one plain coordinate cutting-motion block per remaining transformed point,
and one cutting-motion block with power 0 and the laser-off token. -/
def grblConstLineBlocks (mt : EntityState) (power feed : ℕ) (i : ℕ)
    (line : List Vec2) : List GcodeBlock :=
  match line.map (fun p => mt.transformPoint p) with
  | [] => []
  | start :: rest =>
    commentBlock ("--- Start line " ++ natRepr i) ::
    rapidBlock start ::
    ⟨[.G 1, .S power, .F feed, .M 3], none⟩ ::
    (rest.map coordCutBlock ++ [⟨[.G 1, .S 0, .M 5], none⟩])

/-- Spec-side: the blocks one loop contributes under `Custom`: the line
comment, one rapid move, ONE block carrying the literal power and feed texts
as two instructions, then the literal laser-on text as its own block, one
plain coordinate cutting-motion block per remaining transformed point, and
the literal laser-off text as the final block of the loop. -/
def customLineBlocks (mt : EntityState) (laser_on laser_off power feed : String)
    (i : ℕ) (line : List Vec2) : List GcodeBlock :=
  match line.map (fun p => mt.transformPoint p) with
  | [] => []
  | start :: rest =>
    commentBlock ("--- Start line " ++ natRepr i) ::
    rapidBlock start ::
    ⟨[.Custom power, .Custom feed], none⟩ ::
    ⟨[.Custom laser_on], none⟩ ::
    (rest.map coordCutBlock ++ [⟨[.Custom laser_off], none⟩])

/-- The blocks of all loops from index `i` on, for a per-loop block
function. -/
def linesBlocks (f : ℕ → List Vec2 → List GcodeBlock) :
    ℕ → List (List Vec2) → List GcodeBlock
  | _, [] => []
  | i, l :: rest => f i l ++ linesBlocks f (i + 1) rest

/-- The blocks of `count` passes starting at pass number `pass`: each pass
contributes its "Begin pass" comment and all loops' blocks. -/
def passesBlocks (f : ℕ → List Vec2 → List GcodeBlock) (m : Model) :
    ℕ → ℕ → List GcodeBlock
  | _, 0 => []
  | pass, k + 1 =>
    (commentBlock ("-- Begin pass " ++ natRepr (pass + 1)) ::
      linesBlocks f 0 m.lines_iter) ++ passesBlocks f m (pass + 1) k

theorem foldl_coordBlocks (rest : List Vec2) :
    ∀ b : GcodeBuilder, b.current_block = ⟨[], none⟩ →
      rest.foldl (fun b point => (((b.cutting_motion).x point.x).y point.y).eob) b =
        ⟨b.inner ++ rest.map coordCutBlock, ⟨[], none⟩⟩ := by
  induction rest with
  | nil =>
    intro b hb
    cases b
    simp_all
  | cons p rest ih =>
    intro b hb
    rw [List.foldl_cons]
    have hstep : (((b.cutting_motion).x p.x).y p.y).eob =
        ⟨b.inner ++ [coordCutBlock p], ⟨[], none⟩⟩ := by
      simp [GcodeBuilder.cutting_motion, GcodeBuilder.x, GcodeBuilder.y,
        GcodeBuilder.eob, GcodeBuilder.push, GcodeBlock.push, hb, coordCutBlock, gcodeBlock_default_eq]
    rw [hstep, ih _ rfl]
    simp [List.map_cons, List.append_assoc]

theorem generate_line_grblConst (b : GcodeBuilder) (mt : EntityState)
    (passes power feed i : ℕ) (line : List Vec2)
    (hcur : b.current_block = ⟨[], none⟩) (hne : line ≠ []) :
    generate_gcode_line b mt (.GrblConst passes power feed) i line =
      some ⟨b.inner ++ grblConstLineBlocks mt power feed i line, ⟨[], none⟩⟩ := by
  rw [generate_gcode_line, grblConstLineBlocks]
  rcases hl : line.map (fun p => mt.transformPoint p) with _ | ⟨start, rest⟩
  · exact absurd (List.map_eq_nil_iff.mp hl) hne
  · have hcomment : ∀ s, (b.comment_block s).current_block = ⟨[], none⟩ := fun s => hcur
    have hrapid : ((((b.comment_block ("--- Start line " ++ natRepr i)).rapid_motion).x
        start.x).y start.y).eob =
        ⟨b.inner ++ [commentBlock ("--- Start line " ++ natRepr i), rapidBlock start],
          ⟨[], none⟩⟩ := by
      simp [GcodeBuilder.comment_block, GcodeBuilder.rapid_motion, GcodeBuilder.x,
        GcodeBuilder.y, GcodeBuilder.eob, GcodeBuilder.push, GcodeBlock.push,
        GcodeBlock.add_comment, hcur, commentBlock, rapidBlock, gcodeBlock_default_eq]
    dsimp only
    rw [hrapid]
    have hmode : ∀ (bb : GcodeBuilder), bb.current_block = ⟨[], none⟩ →
        ((((bb.cutting_motion).laser_power power).feed feed).laser_on_const).eob =
          ⟨bb.inner ++ [⟨[.G 1, .S power, .F feed, .M 3], none⟩], ⟨[], none⟩⟩ := by
      intro bb hbb
      simp [GcodeBuilder.cutting_motion, GcodeBuilder.laser_power, GcodeBuilder.feed,
        GcodeBuilder.laser_on_const, GcodeBuilder.eob, GcodeBuilder.push,
        GcodeBlock.push, hbb, gcodeBlock_default_eq]
    rw [hmode _ rfl, foldl_coordBlocks rest _ rfl]
    have hoff : ∀ (bb : GcodeBuilder), bb.current_block = ⟨[], none⟩ →
        (((bb.cutting_motion).laser_power 0).laser_off).eob =
          ⟨bb.inner ++ [⟨[.G 1, .S 0, .M 5], none⟩], ⟨[], none⟩⟩ := by
      intro bb hbb
      simp [GcodeBuilder.cutting_motion, GcodeBuilder.laser_power,
        GcodeBuilder.laser_off, GcodeBuilder.eob, GcodeBuilder.push,
        GcodeBlock.push, hbb, gcodeBlock_default_eq]
    rw [hoff _ rfl]
    simp [List.append_assoc]

theorem generate_line_custom (b : GcodeBuilder) (mt : EntityState)
    (passes : ℕ) (laser_on laser_off power feed : String) (i : ℕ) (line : List Vec2)
    (hcur : b.current_block = ⟨[], none⟩) (hne : line ≠ []) :
    generate_gcode_line b mt (.Custom passes laser_on laser_off power feed) i line =
      some ⟨b.inner ++ customLineBlocks mt laser_on laser_off power feed i line,
        ⟨[], none⟩⟩ := by
  rw [generate_gcode_line, customLineBlocks]
  rcases hl : line.map (fun p => mt.transformPoint p) with _ | ⟨start, rest⟩
  · exact absurd (List.map_eq_nil_iff.mp hl) hne
  · have hrapid : ((((b.comment_block ("--- Start line " ++ natRepr i)).rapid_motion).x
        start.x).y start.y).eob =
        ⟨b.inner ++ [commentBlock ("--- Start line " ++ natRepr i), rapidBlock start],
          ⟨[], none⟩⟩ := by
      simp [GcodeBuilder.comment_block, GcodeBuilder.rapid_motion, GcodeBuilder.x,
        GcodeBuilder.y, GcodeBuilder.eob, GcodeBuilder.push, GcodeBlock.push,
        GcodeBlock.add_comment, hcur, commentBlock, rapidBlock, gcodeBlock_default_eq]
    dsimp only
    rw [hrapid]
    have hmode : ∀ (bb : GcodeBuilder), bb.current_block = ⟨[], none⟩ →
        ((((bb.custom power).custom feed).eob).custom laser_on).eob =
          ⟨bb.inner ++ [⟨[.Custom power, .Custom feed], none⟩,
            ⟨[.Custom laser_on], none⟩], ⟨[], none⟩⟩ := by
      intro bb hbb
      simp [GcodeBuilder.custom, GcodeBuilder.eob, GcodeBuilder.push,
        GcodeBlock.push, hbb, gcodeBlock_default_eq]
    rw [hmode _ rfl, foldl_coordBlocks rest _ rfl]
    have hoff : ∀ (bb : GcodeBuilder), bb.current_block = ⟨[], none⟩ →
        ((bb.custom laser_off)).eob =
          ⟨bb.inner ++ [⟨[.Custom laser_off], none⟩], ⟨[], none⟩⟩ := by
      intro bb hbb
      simp [GcodeBuilder.custom, GcodeBuilder.eob, GcodeBuilder.push,
        GcodeBlock.push, hbb, gcodeBlock_default_eq]
    rw [hoff _ rfl]
    simp [List.append_assoc]

theorem genLinesLoop_grblConst (mt : EntityState) (passes power feed : ℕ)
    (lines : List (List Vec2)) :
    ∀ (i : ℕ) (b : GcodeBuilder), b.current_block = ⟨[], none⟩ →
      (∀ l ∈ lines, l ≠ []) →
      genLinesLoop mt (.GrblConst passes power feed) b i lines =
        some ⟨b.inner ++ linesBlocks (grblConstLineBlocks mt power feed) i lines,
          ⟨[], none⟩⟩ := by
  induction lines with
  | nil =>
    intro i b hcur _
    cases b
    simp_all [genLinesLoop, linesBlocks]
  | cons l rest ih =>
    intro i b hcur hne
    rw [genLinesLoop,
      generate_line_grblConst b mt passes power feed i l hcur (hne l (by simp))]
    dsimp only
    rw [ih (i + 1) _ rfl (fun l hl => hne l (by simp [hl]))]
    simp [linesBlocks, List.append_assoc]

theorem genLinesLoop_custom (mt : EntityState) (passes : ℕ)
    (laser_on laser_off power feed : String) (lines : List (List Vec2)) :
    ∀ (i : ℕ) (b : GcodeBuilder), b.current_block = ⟨[], none⟩ →
      (∀ l ∈ lines, l ≠ []) →
      genLinesLoop mt (.Custom passes laser_on laser_off power feed) b i lines =
        some ⟨b.inner ++
          linesBlocks (customLineBlocks mt laser_on laser_off power feed) i lines,
          ⟨[], none⟩⟩ := by
  induction lines with
  | nil =>
    intro i b hcur _
    cases b
    simp_all [genLinesLoop, linesBlocks]
  | cons l rest ih =>
    intro i b hcur hne
    rw [genLinesLoop,
      generate_line_custom b mt passes laser_on laser_off power feed i l hcur
        (hne l (by simp))]
    dsimp only
    rw [ih (i + 1) _ rfl (fun l hl => hne l (by simp [hl]))]
    simp [linesBlocks, List.append_assoc]

theorem genPassLoop_grblConst (m : Model) (mt : EntityState)
    (passes power feed : ℕ) (hrings : ∀ ring ∈ m.lines_iter, ring ≠ []) :
    ∀ (k pass : ℕ) (b : GcodeBuilder), b.current_block = ⟨[], none⟩ →
      genPassLoop m mt (.GrblConst passes power feed) b pass k =
        some ⟨b.inner ++ passesBlocks (grblConstLineBlocks mt power feed) m pass k,
          ⟨[], none⟩⟩ := by
  intro k
  induction k with
  | zero =>
    intro pass b hcur
    cases b
    simp_all [genPassLoop, passesBlocks]
  | succ k ih =>
    intro pass b hcur
    rw [genPassLoop]
    rw [Model.generate_gcode_lines,
      genLinesLoop_grblConst mt passes power feed m.lines_iter 0 _
        (by simp [GcodeBuilder.comment_block, hcur]) hrings]
    dsimp only
    rw [ih (pass + 1) _ rfl]
    simp [passesBlocks, GcodeBuilder.comment_block, GcodeBlock.add_comment,
      commentBlock, gcodeBlock_default_eq, List.append_assoc]

theorem genPassLoop_custom (m : Model) (mt : EntityState) (passes : ℕ)
    (laser_on laser_off power feed : String)
    (hrings : ∀ ring ∈ m.lines_iter, ring ≠ []) :
    ∀ (k pass : ℕ) (b : GcodeBuilder), b.current_block = ⟨[], none⟩ →
      genPassLoop m mt (.Custom passes laser_on laser_off power feed) b pass k =
        some ⟨b.inner ++
          passesBlocks (customLineBlocks mt laser_on laser_off power feed) m pass k,
          ⟨[], none⟩⟩ := by
  intro k
  induction k with
  | zero =>
    intro pass b hcur
    cases b
    simp_all [genPassLoop, passesBlocks]
  | succ k ih =>
    intro pass b hcur
    rw [genPassLoop]
    rw [Model.generate_gcode_lines,
      genLinesLoop_custom mt passes laser_on laser_off power feed m.lines_iter 0 _
        (by simp [GcodeBuilder.comment_block, hcur]) hrings]
    dsimp only
    rw [ih (pass + 1) _ rfl]
    simp [passesBlocks, GcodeBuilder.comment_block, GcodeBlock.add_comment,
      commentBlock, gcodeBlock_default_eq, List.append_assoc]

/-- C3 amended: generating a `GrblConst` sequence item over a shape repeats,
exactly `passes` times: a "Begin pass" comment, then per loop — over the
stored closed rings, which retain the duplicated start/end point — the line
comment, one rapid move to the first transformed point, one cutting-motion
block carrying the step's power, feed and the constant-power laser-on token,
then one plain coordinate cutting-motion block per remaining transformed
point (for a 4-point closed loop the stored ring has 5 points, so 4 plain
coordinate blocks, the last returning to the start), then one cutting-motion
block with power 0 and the laser-off token. -/
theorem generate_grblConst_spec (m : Model) (mt : EntityState)
    (passes power feed : ℕ) (b : GcodeBuilder)
    (hcur : b.current_block = ⟨[], none⟩)
    (hrings : ∀ ring ∈ m.lines_iter, ring ≠ []) :
    m.generate_seq_item mt (.GrblConst passes power feed) b =
      some ⟨b.inner ++ passesBlocks (grblConstLineBlocks mt power feed) m 0 passes,
        ⟨[], none⟩⟩ := by
  rw [Model.generate_seq_item]
  exact genPassLoop_grblConst m mt passes power feed hrings passes 0 b hcur

/-- C4 amended: generating a `Custom` sequence item emits, for every loop,
one block holding the literal power text and the literal feed text as two
instructions, then the literal laser-on text as its own block, before the
per-point coordinate cutting-motion blocks, and the literal laser-off text
as the final block of the loop — all four strings inserted verbatim with no
numeric reformatting or synthesized power/feed instructions. -/
theorem generate_custom_spec (m : Model) (mt : EntityState) (passes : ℕ)
    (laser_on laser_off power feed : String) (b : GcodeBuilder)
    (hcur : b.current_block = ⟨[], none⟩)
    (hrings : ∀ ring ∈ m.lines_iter, ring ≠ []) :
    m.generate_seq_item mt (.Custom passes laser_on laser_off power feed) b =
      some ⟨b.inner ++
        passesBlocks (customLineBlocks mt laser_on laser_off power feed) m 0 passes,
        ⟨[], none⟩⟩ := by
  rw [Model.generate_seq_item]
  exact genPassLoop_custom m mt passes laser_on laser_off power feed hrings passes 0 b hcur

/-! ### Concrete generation fixtures (C3, C4) -/

/-- The four segments of a closed unit-less square loop with corners
`(0,0)`, `(4,0)`, `(4,4)`, `(0,4)`. -/
def squareSegs : List Segment :=
  [⟨⟨0, 0⟩, ⟨4, 0⟩⟩, ⟨⟨4, 0⟩, ⟨4, 4⟩⟩, ⟨⟨4, 4⟩, ⟨0, 4⟩⟩, ⟨⟨0, 4⟩, ⟨0, 0⟩⟩]

/-- The polyline the stitcher produces for `squareSegs`: 5 stored points,
the start point repeated at the end. -/
def squareLoop : GLineString := [⟨0, 0⟩, ⟨4, 0⟩, ⟨4, 4⟩, ⟨0, 4⟩, ⟨0, 0⟩]

/-- The model built from the single square loop. -/
def squareModel : Model :=
  ⟨(Shape.from_lines geoContains [squareLoop]).getD junkShape, "square"⟩

/-- The identity entity state (zero translation, identity rotor, unit scale,
no flip). -/
def idState : EntityState := ⟨⟨⟨0, 0⟩, ⟨1, 0⟩, 1⟩, false, 0⟩

/-- Is the block a plain coordinate cutting-motion block (`G1 X.. Y..`, no
mode or power token, no comment)? -/
def isPlainCoordCut : GcodeBlock → Bool
  | ⟨[.G 1, .X _, .Y _], none⟩ => true
  | _ => false

/-- Is the block a rapid move (starts with `G0`)? -/
def isRapid : GcodeBlock → Bool
  | ⟨.G 0 :: _, _⟩ => true
  | _ => false

/-- C3 witness: the amended theorem applied to the square model with
`GrblConst{passes := 2, power := 500, feed := 1000}` and the identity
transform. -/
theorem generate_grblConst_spec_witness :
    squareModel.generate_seq_item idState (.GrblConst 2 500 1000) ⟨[], ⟨[], none⟩⟩ =
      some ⟨passesBlocks (grblConstLineBlocks idState 500 1000) squareModel 0 2,
        ⟨[], none⟩⟩ := by
  have h := generate_grblConst_spec squareModel idState 2 500 1000 ⟨[], ⟨[], none⟩⟩ rfl
    (by with_unfolding_all decide)
  simpa using h

/-- C3 counterexample: the square loop stitched from 4 segments stores 5
points, the built model walks that stored ring, and `GrblConst{passes:2}`
over it emits 2 rapid moves and 8 plain coordinate cutting blocks — 4 per
repetition (the fourth returns to the start point), not 3 as claimed. -/
theorem grblConst_four_point_loop_blocks :
    stitchSegments squareSegs = [squareLoop] ∧
    squareModel.lines_iter = [squareLoop] ∧
    (squareModel.generate_seq_item idState (.GrblConst 2 500 1000)
        ⟨[], ⟨[], none⟩⟩).map
      (fun b => ((b.inner.filter isPlainCoordCut).length,
        (b.inner.filter isRapid).length)) = some (8, 2) ∧
    (8 : ℕ) ≠ 2 * 3 := by
  refine ⟨?_, ?_, ?_, by decide⟩ <;> with_unfolding_all decide

/-- C4 witness: the amended theorem applied to the square model with
`Custom{passes := 1, laser_on := "M3 S100", laser_off := "M5",
power := "S100", feed := "F500"}`. -/
theorem generate_custom_spec_witness :
    squareModel.generate_seq_item idState
        (.Custom 1 "M3 S100" "M5" "S100" "F500") ⟨[], ⟨[], none⟩⟩ =
      some ⟨passesBlocks (customLineBlocks idState "M3 S100" "M5" "S100" "F500")
        squareModel 0 1, ⟨[], none⟩⟩ := by
  have h := generate_custom_spec squareModel idState 1 "M3 S100" "M5" "S100" "F500"
    ⟨[], ⟨[], none⟩⟩ rfl (by with_unfolding_all decide)
  simpa using h

/-- C4 counterexample: the full block list for
`Custom{passes:1, laser_on:"M3 S100", laser_off:"M5", power:"S100",
feed:"F500"}` over the square loop. The literal power and feed texts share
one block (`S100 F500` on one line); the power text never appears as its own
block, so "three successive blocks (each on its own block)" is false. The
laser-off text is the final block, verbatim. -/
theorem custom_power_feed_share_one_block :
    squareModel.generate_seq_item idState
        (.Custom 1 "M3 S100" "M5" "S100" "F500") ⟨[], ⟨[], none⟩⟩ =
      some ⟨[commentBlock "-- Begin pass 1", commentBlock "--- Start line 0",
        ⟨[.G 0, .X 0, .Y 0], none⟩,
        ⟨[.Custom "S100", .Custom "F500"], none⟩,
        ⟨[.Custom "M3 S100"], none⟩,
        ⟨[.G 1, .X 4, .Y 0], none⟩, ⟨[.G 1, .X 4, .Y 4], none⟩,
        ⟨[.G 1, .X 0, .Y 4], none⟩, ⟨[.G 1, .X 0, .Y 0], none⟩,
        ⟨[.Custom "M5"], none⟩], ⟨[], none⟩⟩ ∧
    ([commentBlock "-- Begin pass 1", commentBlock "--- Start line 0",
        (⟨[.G 0, .X 0, .Y 0], none⟩ : GcodeBlock),
        ⟨[.Custom "S100", .Custom "F500"], none⟩,
        ⟨[.Custom "M3 S100"], none⟩,
        ⟨[.G 1, .X 4, .Y 0], none⟩, ⟨[.G 1, .X 4, .Y 4], none⟩,
        ⟨[.G 1, .X 0, .Y 4], none⟩, ⟨[.G 1, .X 0, .Y 0], none⟩,
        ⟨[.Custom "M5"], none⟩].all
      (fun blk => blk.ins ≠ [.Custom "S100"])) = true := by
  constructor <;> with_unfolding_all decide

end LaserCam
